import Mathlib

/-!
# Verification of the telegram-insight-survey application logic

Shallow embedding of the meaningful logic of the two source pages:

* `src/pages/Survey.tsx` — the intake form: validation, the "Other"-sentinel
  substitution in `usage_reason`, payload construction for the insert, and
  the reset / preserve behaviour of the draft after a submit attempt.
* `src/pages/Dashboard.tsx` — the results dashboard: the count + ranged
  page fetch, the four chart-data derivations, and the pagination controls.

JavaScript objects used as frequency maps are embedded as insertion-ordered
association lists (`List (String × Nat)`): for the non-numeric string keys
occurring here, `Object.entries` enumerates keys in first-insertion order.
JavaScript's stable `Array.prototype.sort` with comparator
`(a, b) => b.value - a.value` is embedded as Mathlib's stable
`List.insertionSort` with the relation `b.value ≤ a.value`.
The store client (supabase) resolves each request with a result object and
does not throw: a failed count request yields a null count (embedded as
`Option.none`) and a failed page request yields an error result (embedded
as `Except.error`).
-/

namespace TelegramSurvey

/-! ## Data model (§3 of the spec; the `SurveyResponse` interface) -/

/-- A persisted survey record, as read back by the dashboard
(`interface SurveyResponse` in `Dashboard.tsx`).  `submitted_at` is the
store-assigned timestamp, embedded as a `Nat`. -/
structure SurveyResponse where
  id : String
  name : Option String
  age_group : String
  usage_duration : String
  usage_reason : List String
  content_preference : List String
  regular_bots_or_channels : Option String
  recommend_telegram : String
  improvement_suggestions : Option String
  submitted_at : Nat
deriving DecidableEq

/-! ## Intake component (`Survey.tsx`) -/

/-- The controlled form state (`formData` in `Survey.tsx`), including the
transient `other_usage_reason` scratch field. -/
structure FormData where
  name : String
  age_group : String
  usage_duration : String
  usage_reason : List String
  content_preference : List String
  regular_bots_or_channels : String
  recommend_telegram : String
  improvement_suggestions : String
  other_usage_reason : String
deriving DecidableEq

/-- The initial form state, also what the form is reset to after a
successful submit. -/
def emptyForm : FormData :=
  { name := ""
    age_group := ""
    usage_duration := ""
    usage_reason := []
    content_preference := []
    regular_bots_or_channels := ""
    recommend_telegram := ""
    improvement_suggestions := ""
    other_usage_reason := "" }

/-- The finalUsageReasons computation in handleSubmit: when the draft list
includes the sentinel and the scratch value is truthy (a JS string is
truthy exactly when non-empty), filter out every sentinel occurrence and
append the scratch value; otherwise the draft list unchanged. -/
def finalUsageReasons (usage_reason : List String) (other_usage_reason : String) : List String :=
  if "Other" ∈ usage_reason ∧ other_usage_reason ≠ "" then
    usage_reason.filter (fun r => r ≠ "Other") ++ [other_usage_reason]
  else usage_reason

/-- The record handed to `insert` (the object literal in `handleSubmit`);
`id` and `submitted_at` are assigned by the store and absent here. -/
structure InsertPayload where
  name : Option String
  age_group : String
  usage_duration : String
  usage_reason : List String
  content_preference : List String
  regular_bots_or_channels : Option String
  recommend_telegram : String
  improvement_suggestions : Option String
deriving DecidableEq

/-- JS `s || null`: a blank optional field is coerced to the explicit
absent marker. -/
def strToOpt (s : String) : Option String :=
  if s = "" then none else some s

/-- The insert payload built from a draft in `handleSubmit`. -/
def buildPayload (f : FormData) : InsertPayload :=
  { name := strToOpt f.name
    age_group := f.age_group
    usage_duration := f.usage_duration
    usage_reason := finalUsageReasons f.usage_reason f.other_usage_reason
    content_preference := f.content_preference
    regular_bots_or_channels := strToOpt f.regular_bots_or_channels
    recommend_telegram := f.recommend_telegram
    improvement_suggestions := strToOpt f.improvement_suggestions }

/-- First validation check of `handleSubmit`:
`!formData.age_group || !formData.usage_duration || !formData.recommend_telegram`. -/
def missingRequired (f : FormData) : Bool :=
  f.age_group = "" || f.usage_duration = "" || f.recommend_telegram = ""

/-- Second validation check of `handleSubmit`:
`formData.usage_reason.length === 0 || formData.content_preference.length === 0`. -/
def missingSelections (f : FormData) : Bool :=
  f.usage_reason.isEmpty || f.content_preference.isEmpty

/-- Outcome of one submit attempt, as surfaced to the user by the toasts in
`handleSubmit`. -/
inductive SubmitResult where
  | validationError
  | inserted (payload : InsertPayload)
  | insertFailed
deriving DecidableEq

/-- Whether the store accepted the submit (the success toast / reset path). -/
def isAccepted : SubmitResult → Bool
  | .inserted _ => true
  | _ => false

/-- The handleSubmit flow of `Survey.tsx`, parameterised by the store's answer to
the insert request (`storeAccepts = true` means the insert succeeded).
Returns the insert request issued (if any), the surfaced result, and the
form state afterwards. -/
def handleSubmit (f : FormData) (storeAccepts : Bool) :
    Option InsertPayload × SubmitResult × FormData :=
  if missingRequired f then (none, .validationError, f)
  else if missingSelections f then (none, .validationError, f)
  else if storeAccepts then (some (buildPayload f), .inserted (buildPayload f), emptyForm)
  else (some (buildPayload f), .insertFailed, f)

/-! ## Dashboard fetch (`Dashboard.tsx`, `fetchResponses`) -/

/-- Embeds `const responsesPerPage = 10`. -/
def responsesPerPage : Nat := 10

/-- The inclusive zero-based offsets of the supabase `.range` call:
`.range((currentPage - 1) * responsesPerPage, currentPage * responsesPerPage - 1)`. -/
def pageRange (page : Nat) : Nat × Nat :=
  ((page - 1) * responsesPerPage, page * responsesPerPage - 1)

/-- Semantics of the store's inclusive zero-based range select
(`selectPage` in §6 of the spec): elements at indices `s .. e`. -/
def selectRange (l : List α) (s e : Nat) : List α :=
  (l.drop s).take (e + 1 - s)

/-- The store's `order('submitted_at', { ascending: false })`: the record
set ordered by `submitted_at` descending. -/
def orderBySubmittedAtDesc (l : List SurveyResponse) : List SurveyResponse :=
  List.insertionSort (fun a b => b.submitted_at ≤ a.submitted_at) l

/-- The paginated read issued by `fetchResponses`: one range query over the
record set ordered by `submitted_at` descending, with the offsets of
`pageRange`. -/
def fetchPage (db : List SurveyResponse) (page : Nat) : List SurveyResponse :=
  selectRange (orderBySubmittedAtDesc db) (pageRange page).1 (pageRange page).2

/-- The dashboard component state touched by `fetchResponses`. -/
structure DashState where
  responses : List SurveyResponse
  currentPage : Nat
  totalResponses : Nat
  loading : Bool
deriving DecidableEq

/-- One run of `fetchResponses`, parameterised by the outcomes of the two
store requests.  `countRes = none` embeds a failed count request (supabase
resolves it with a null count and an error field the code never reads);
`pageRes = .error ()` embeds a failed page request (the code throws on its
`error` field).  Returns the new state and whether the error toast fired.
The code runs `setTotalResponses(count || 0)` before the page request and
unconditionally clears `loading` in the `finally` block. -/
def fetchResponses (st : DashState) (countRes : Option Nat)
    (pageRes : Except Unit (List SurveyResponse)) : DashState × Bool :=
  let afterCount : DashState := { st with totalResponses := countRes.getD 0 }
  match pageRes with
  | .ok data => ({ afterCount with responses := data, loading := false }, false)
  | .error _ => ({ afterCount with loading := false }, true)

/-! ## Chart derivations (`Dashboard.tsx`) -/

/-- One `{ name, value }` entry of a chart-ready series. -/
structure ChartEntry where
  name : String
  value : Nat
deriving DecidableEq

/-- Whether the accumulator object already has key `k`. -/
def hasKey (acc : List (String × Nat)) (k : String) : Bool :=
  acc.any (fun p => p.1 == k)

/-- Embeds `acc[k] = (acc[k] || 0) + 1` on a JS object, as an
insertion-ordered association list: an existing key is updated in place,
a new key is appended. -/
def bump (acc : List (String × Nat)) (k : String) : List (String × Nat) :=
  if hasKey acc k then acc.map (fun p => if p.1 = k then (p.1, p.2 + 1) else p)
  else acc ++ [(k, 1)]

/-- Folding `bump` over a list of keys (the body of a `reduce`). -/
def bumpList (acc : List (String × Nat)) (l : List String) : List (String × Nat) :=
  l.foldl bump acc

/-- Embeds the final `Object.entries` pass turning the accumulated object
into the chart series. -/
def accToEntries (acc : List (String × Nat)) : List ChartEntry :=
  acc.map (fun p => ChartEntry.mk p.1 p.2)

/-- The getAgeGroupData derivation: frequency of `age_group` over the fetched page,
emitted in the object's key order. -/
def getAgeGroupData (responses : List SurveyResponse) : List ChartEntry :=
  accToEntries (responses.foldl (fun acc r => bump acc r.age_group) [])

/-- The getRecommendationData derivation: frequency of `recommend_telegram` over the
fetched page, emitted in the object's key order. -/
def getRecommendationData (responses : List SurveyResponse) : List ChartEntry :=
  accToEntries (responses.foldl (fun acc r => bump acc r.recommend_telegram) [])

/-- The getUsageDurationData derivation: frequency of `usage_duration` over the fetched
page, emitted in the object's key order. -/
def getUsageDurationData (responses : List SurveyResponse) : List ChartEntry :=
  accToEntries (responses.foldl (fun acc r => bump acc r.usage_duration) [])

/-- The character class of the JS regex `\s` restricted to the ASCII
whitespace characters (the labels involved only ever contain a plain
space). -/
def jsWhitespace (c : Char) : Bool :=
  c = ' ' || c = '\t' || c = '\n' || c = '\r' || c = '\x0b' || c = '\x0c'

/-- Scanner for the tail of the regex `/^[^\s]+ /` after its first
character: consume further non-whitespace characters, succeed on a space,
fail on any other whitespace or the end of the string. -/
def afterTok : List Char → Option (List Char)
  | [] => none
  | c :: cs => if c = ' ' then some cs else if jsWhitespace c then none else afterTok cs

/-- Embeds the label rewrite done with a regex replace: strip a leading maximal run of
non-whitespace characters plus one following space; if the pattern does not
match, the label is returned unchanged. -/
def stripLabel (s : String) : String :=
  match s.data with
  | [] => s
  | c :: cs =>
    if jsWhitespace c then s
    else
      match afterTok cs with
      | some rest => String.mk rest
      | none => s

/-- The `reduce` of `getContentPreferenceData`: every element of every
record's `content_preference` list is counted into one object. -/
def contentCounts (responses : List SurveyResponse) : List (String × Nat) :=
  responses.foldl (fun acc r => r.content_preference.foldl bump acc) []

/-- JS `Array.prototype.sort` (stable) with comparator
`(a, b) => b.value - a.value`: the stable descending sort by count. -/
def sortEntriesDesc (l : List ChartEntry) : List ChartEntry :=
  List.insertionSort (fun a b => b.value ≤ a.value) l

/-- The getContentPreferenceData derivation: count every flattened `content_preference`
element, strip the decorative prefix from each label, sort descending by
count (stable), and keep the first 10 entries (`.slice(0, 10)`). -/
def getContentPreferenceData (responses : List SurveyResponse) : List ChartEntry :=
  (sortEntriesDesc
    ((contentCounts responses).map (fun p => ChartEntry.mk (stripLabel p.1) p.2))).take 10

/-! ## Pagination (`Dashboard.tsx`) -/

/-- Embeds `const totalPages = Math.ceil(totalResponses / responsesPerPage)`. -/
def totalPages (totalResponses : Nat) : Nat :=
  (totalResponses + responsesPerPage - 1) / responsesPerPage

/-- The previous-page control: `setCurrentPage(prev => Math.max(prev - 1, 1))`. -/
def prevPageClick (p : Nat) : Nat :=
  max (p - 1) 1

/-- The next-page control: `setCurrentPage(prev => Math.min(prev + 1, totalPages))`. -/
def nextPageClick (p tp : Nat) : Nat :=
  min (p + 1) tp

/-- The direct page links:
`Array.from({ length: totalPages }, (_, i) => i + 1)`. -/
def pageLinks (tp : Nat) : List Nat :=
  (List.range tp).map (· + 1)

/-! ## Spec-side definitions (refinement targets)

These follow the wording of the specification, to be proved equal to the
code-side definitions above. -/

/-- First-seen deduplication: the distinct elements of a list in order of
first occurrence. -/
def dedupFS : List String → List String
  | [] => []
  | x :: xs => x :: dedupFS (xs.filter (fun y => y ≠ x))
termination_by l => l.length
decreasing_by simp_wf; exact Nat.lt_succ_of_le (List.length_filter_le _ _)

/-- Spec §4.2, single-valued fields: "a frequency mapping keyed by literal
field value, in first-seen order, emitted as a sequence of {label, count}
pairs in that first-seen order (no sort)". -/
def fieldDistributionSpec (vals : List String) : List ChartEntry :=
  (dedupFS vals).map (fun k => ChartEntry.mk k (vals.count k))

/-- Spec §4.2: "strip a leading non-whitespace token plus one following
space from each label", phrased with `takeWhile`/`drop`. -/
def stripLabelSpec (s : String) : String :=
  let tok := s.data.takeWhile (fun c => !jsWhitespace c)
  if tok.length ≠ 0 ∧ (s.data.drop tok.length).head? = some ' ' then
    String.mk (s.data.drop (tok.length + 1))
  else s

/-- Spec §4.2, `content_preference`: "build a frequency mapping over every
element of every record's set (flattening), strip a leading non-whitespace
token plus one following space from each label, then sort descending by
count and keep at most the top 10 entries". -/
def contentPreferenceSpec (responses : List SurveyResponse) : List ChartEntry :=
  let flat := (responses.map (fun r => r.content_preference)).flatten
  (sortEntriesDesc
    ((dedupFS flat).map (fun k => ChartEntry.mk (stripLabelSpec k) (flat.count k)))).take 10

/-! ## Concrete instances used as test inputs -/

/-- A concrete persisted record (values drawn from the form's fixed option
lists). -/
def sampleResponse : SurveyResponse :=
  { id := "r1"
    name := none
    age_group := "18–24"
    usage_duration := "1–3 years"
    usage_reason := ["For privacy and security"]
    content_preference := ["📽 Movies & Web Series"]
    regular_bots_or_channels := none
    recommend_telegram := "Yes"
    improvement_suggestions := none
    submitted_at := 0 }

/-- A dashboard state with previously displayed data: a total of 7 and an
empty current page. -/
def dashStatePrior : DashState :=
  { responses := [], currentPage := 1, totalResponses := 7, loading := false }

/-! ## Theorems: intake component -/

/-- C2: for every draft whose `usage_reason` contains the sentinel "Other"
and whose scratch `other_usage_reason` is non-empty, the submitted
`usage_reason` list is all non-"Other" reasons in their original relative
order (a sublist of the draft list) followed by the scratch value appended
last; in particular `["Other"]` with scratch `"Custom X"` is submitted as
exactly `["Custom X"]`. -/
theorem claim_C2 (u : List String) (o : String) (hmem : "Other" ∈ u) (ho : o ≠ "") :
    finalUsageReasons u o = u.filter (fun r => r ≠ "Other") ++ [o] ∧
    (u.filter (fun r => r ≠ "Other")).Sublist u ∧
    finalUsageReasons ["Other"] "Custom X" = ["Custom X"] := by
  refine ⟨?_, List.filter_sublist u, ?_⟩
  · simp [finalUsageReasons, hmem, ho]
  · decide

/-- Witness for C2 at a concrete draft with a co-selected non-"Other"
reason. -/
theorem claim_C2_witness :
    "Other" ∈ ["To chat with friends", "Other"] ∧ ("Custom X" : String) ≠ "" ∧
    finalUsageReasons ["To chat with friends", "Other"] "Custom X" =
      ["To chat with friends", "Custom X"] := by
  refine ⟨by decide, by decide, ?_⟩
  rw [(claim_C2 ["To chat with friends", "Other"] "Custom X" (by decide) (by decide)).1]
  decide

/-- C9: when `usage_reason` contains the sentinel "Other" but the scratch
value is empty, the list is submitted unchanged, so the literal string
"Other" itself is persisted. -/
theorem claim_C9 (u : List String) (hmem : "Other" ∈ u) :
    finalUsageReasons u ("") = u ∧ "Other" ∈ finalUsageReasons u ("") := by
  have h : finalUsageReasons u ("") = u := by simp [finalUsageReasons]
  exact ⟨h, by rw [h]; exact hmem⟩

/-- Witness for C9 at the draft with `usage_reason = ["Other"]`. -/
theorem claim_C9_witness :
    "Other" ∈ (["Other"] : List String) ∧ finalUsageReasons ["Other"] "" = ["Other"] :=
  ⟨by decide, (claim_C9 ["Other"] (by decide)).1⟩

/-- C4: a draft with an empty `age_group`, `usage_duration`, or
`recommend_telegram`, or an empty `usage_reason` or `content_preference`
list, makes `handleSubmit` issue no insert request, report a validation
error, and leave the draft unchanged. -/
theorem claim_C4 (f : FormData) (storeAccepts : Bool)
    (h : f.age_group = "" ∨ f.usage_duration = "" ∨ f.recommend_telegram = "" ∨
      f.usage_reason = [] ∨ f.content_preference = []) :
    handleSubmit f storeAccepts = (none, .validationError, f) := by
  have hmr : missingRequired f = true ∨ missingSelections f = true := by
    rcases h with h | h | h | h | h
    · exact Or.inl (by simp [missingRequired, h])
    · exact Or.inl (by simp [missingRequired, h])
    · exact Or.inl (by simp [missingRequired, h])
    · exact Or.inr (by simp [missingSelections, h])
    · exact Or.inr (by simp [missingSelections, h])
  rcases hmr with hr | hs
  · simp [handleSubmit, hr]
  · by_cases hr : missingRequired f
    · simp [handleSubmit, hr]
    · simp [handleSubmit, hr, hs]

/-- Witness for C4 at the blank draft. -/
theorem claim_C4_witness :
    emptyForm.age_group = "" ∧
    handleSubmit emptyForm true = (none, .validationError, emptyForm) :=
  ⟨rfl, claim_C4 emptyForm true (Or.inl rfl)⟩

/-- C6: after every submit that the store accepts the form state is reset
to `emptyForm` (every draft field, scratch field included, empty/unset);
after every rejected submit — validation failure or insert failure — the
form state is exactly the draft as it was. -/
theorem claim_C6 (f : FormData) (storeAccepts : Bool) :
    (handleSubmit f storeAccepts).2.2 =
      (if isAccepted (handleSubmit f storeAccepts).2.1 then emptyForm else f) := by
  by_cases hr : missingRequired f
  · simp [handleSubmit, hr, isAccepted]
  · by_cases hs : missingSelections f
    · simp [handleSubmit, hr, hs, isAccepted]
    · cases storeAccepts <;> simp [handleSubmit, hr, hs, isAccepted]

/-! ## Theorems: dashboard fetch error handling -/

/-- C5 counterexample: at the prior state `dashStatePrior`
(`totalResponses = 7`), with the count request succeeding with 3 and the
page request failing, the page request has failed yet the displayed total
count does not remain unchanged: the claim that a failing request leaves
both the total count and the record page in place is false here. -/
theorem claim_C5_counterexample :
    ¬ ((fetchResponses dashStatePrior (some 3) (.error ())).2 = true ∧
       (fetchResponses dashStatePrior (some 3) (.error ())).1.totalResponses =
         dashStatePrior.totalResponses ∧
       (fetchResponses dashStatePrior (some 3) (.error ())).1.responses =
         dashStatePrior.responses) := by
  decide

/-- C5 (amended): the two requests are independent, and loading is always
cleared; but the displayed total is unconditionally overwritten with the
count result (0 when the count request failed, silently); only a failing
page request reports the error notice, and only the record page is left
unchanged by it. -/
theorem claim_C5 (st : DashState) (countRes : Option Nat)
    (pageRes : Except Unit (List SurveyResponse)) :
    (fetchResponses st countRes pageRes).1.loading = false ∧
    (fetchResponses st countRes pageRes).1.currentPage = st.currentPage ∧
    (fetchResponses st countRes pageRes).1.totalResponses = countRes.getD 0 ∧
    (fetchResponses st countRes pageRes).1.responses =
      (match pageRes with | .ok d => d | .error _ => st.responses) ∧
    (fetchResponses st countRes pageRes).2 =
      (match pageRes with | .ok _ => false | .error _ => true) := by
  cases pageRes <;> simp [fetchResponses]

/-! ## Theorems: paginated fetch and pagination controls -/

theorem length_orderBySubmittedAtDesc (l : List SurveyResponse) :
    (orderBySubmittedAtDesc l).length = l.length :=
  (List.perm_insertionSort _ l).length_eq

theorem sorted_orderBySubmittedAtDesc (l : List SurveyResponse) :
    List.Sorted (fun a b : SurveyResponse => b.submitted_at ≤ a.submitted_at)
      (orderBySubmittedAtDesc l) := by
  haveI : IsTotal SurveyResponse (fun a b => b.submitted_at ≤ a.submitted_at) :=
    ⟨fun a b => Nat.le_total _ _⟩
  haveI : IsTrans SurveyResponse (fun a b => b.submitted_at ≤ a.submitted_at) :=
    ⟨fun _ _ _ hab hbc => Nat.le_trans hbc hab⟩
  exact List.sorted_insertionSort _ l

/-- C1 counterexample: the range request for page 2 does not use the
offsets `[10, 14]` claimed by the scenario: its inclusive end offset is
`2*10 - 1 = 19`, as the claim's own general formula dictates. -/
theorem claim_C1_counterexample :
    pageRange 2 ≠ (10, 14) ∧ pageRange 2 = (10, 19) := by
  constructor
  · decide
  · decide

/-- C1 (amended): for every page index `p ≥ 1` the dashboard page fetch is
one range query over the record set ordered by `submitted_at` descending
with zero-based inclusive offsets `start = (p-1)*10`, `end = p*10 - 1`;
for page 2 the request uses offsets `[10, 19]`, and over a record set of
total 15 only positions 10–14 exist, so 5 records are returned. -/
theorem claim_C1 (p : Nat) (_hp : 1 ≤ p) (db : List SurveyResponse) :
    pageRange p = ((p - 1) * 10, p * 10 - 1) ∧
    fetchPage db p =
      selectRange (orderBySubmittedAtDesc db) ((p - 1) * 10) (p * 10 - 1) ∧
    List.Sorted (fun a b : SurveyResponse => b.submitted_at ≤ a.submitted_at)
      (orderBySubmittedAtDesc db) ∧
    pageRange 2 = (10, 19) ∧
    (db.length = 15 → (fetchPage db 2).length = 5) := by
  refine ⟨rfl, rfl, sorted_orderBySubmittedAtDesc db, rfl, fun h15 => ?_⟩
  simp [fetchPage, selectRange, pageRange, responsesPerPage,
    length_orderBySubmittedAtDesc, h15]

/-- Witness for C1: page 2 over a concrete 15-record set yields 5 records. -/
theorem claim_C1_witness :
    1 ≤ 2 ∧ (List.replicate 15 sampleResponse).length = 15 ∧
    (fetchPage (List.replicate 15 sampleResponse) 2).length = 5 ∧
    pageRange 2 = (10, 19) := by
  have h := claim_C1 2 (by decide) (List.replicate 15 sampleResponse)
  exact ⟨by decide, by simp, h.2.2.2.2 (by simp), h.2.2.2.1⟩

/-- C8: the page count is `⌈n / 10⌉` (characterised as the least page
count covering all `n` records), every navigation action — previous, next,
or a direct page link — yields a page index within `[1, totalPages n]`,
navigating below 1 or above `totalPages n` is a no-op, and every reachable
page's range query starts at an in-range offset. -/
theorem claim_C8 (n p : Nat) (hp1 : 1 ≤ p) (hp2 : p ≤ totalPages n) :
    n ≤ totalPages n * responsesPerPage ∧
    (totalPages n - 1) * responsesPerPage < n ∧
    1 ≤ prevPageClick p ∧ prevPageClick p ≤ totalPages n ∧
    1 ≤ nextPageClick p (totalPages n) ∧ nextPageClick p (totalPages n) ≤ totalPages n ∧
    prevPageClick 1 = 1 ∧
    nextPageClick (totalPages n) (totalPages n) = totalPages n ∧
    (pageRange (prevPageClick p)).1 < n ∧
    (pageRange (nextPageClick p (totalPages n))).1 < n ∧
    (∀ q ∈ pageLinks (totalPages n), 1 ≤ q ∧ q ≤ totalPages n ∧ (pageRange q).1 < n) := by
  simp only [totalPages, responsesPerPage, prevPageClick, nextPageClick, pageRange,
    pageLinks, List.mem_map, List.mem_range] at hp2 ⊢
  refine ⟨by omega, by omega, by omega, by omega, by omega, by omega, by omega, by omega,
    by omega, by omega, ?_⟩
  rintro q ⟨i, hi, rfl⟩
  omega

/-- Witness for C8 at the spec scenario `total_count = 25`. -/
theorem claim_C8_witness :
    (1 ≤ 3 ∧ 3 ≤ totalPages 25) ∧ totalPages 25 = 3 ∧
    25 ≤ totalPages 25 * responsesPerPage ∧
    prevPageClick 1 = 1 ∧
    nextPageClick (totalPages 25) (totalPages 25) = totalPages 25 := by
  have h := claim_C8 25 3 (by decide) (by decide)
  exact ⟨⟨by decide, by decide⟩, by decide, h.1, h.2.2.2.2.2.2.1, h.2.2.2.2.2.2.2.1⟩

/-! ## Theorems: frequency-map accumulation

The JS `reduce` that builds each frequency object is related to its
specification form: the distinct values in first-seen order, each paired
with its occurrence count. -/

theorem hasKey_eq_true_iff (acc : List (String × Nat)) (x : String) :
    hasKey acc x = true ↔ ∃ q ∈ acc, q.1 = x := by
  simp [hasKey]

theorem hasKey_of_mem {acc : List (String × Nat)} {q : String × Nat} (hq : q ∈ acc) :
    hasKey acc q.1 = true :=
  (hasKey_eq_true_iff acc q.1).mpr ⟨q, hq, rfl⟩

theorem hasKey_bump (acc : List (String × Nat)) (k x : String) :
    hasKey (bump acc k) x = (hasKey acc x || (x == k)) := by
  rw [Bool.eq_iff_iff]
  simp only [Bool.or_eq_true, beq_iff_eq, hasKey_eq_true_iff]
  by_cases h : hasKey acc k = true
  · simp only [bump, if_pos h]
    constructor
    · rintro ⟨q, hq, rfl⟩
      obtain ⟨q', hq', rfl⟩ := List.mem_map.mp hq
      refine Or.inl ⟨q', hq', ?_⟩
      by_cases h' : q'.1 = k <;> simp [h']
    · rintro (⟨q, hq, rfl⟩ | hxk)
      · refine ⟨if q.1 = k then (q.1, q.2 + 1) else q, List.mem_map_of_mem _ hq, ?_⟩
        by_cases h' : q.1 = k <;> simp [h']
      · obtain ⟨q₀, hq₀, hk₀⟩ := (hasKey_eq_true_iff acc k).mp h
        refine ⟨if q₀.1 = k then (q₀.1, q₀.2 + 1) else q₀, List.mem_map_of_mem _ hq₀, ?_⟩
        rw [if_pos hk₀]
        exact hk₀.trans hxk.symm
  · simp only [bump, if_neg h]
    constructor
    · rintro ⟨q, hq, rfl⟩
      rcases List.mem_append.mp hq with hq | hq
      · exact Or.inl ⟨q, hq, rfl⟩
      · rcases List.mem_singleton.mp hq with rfl
        exact Or.inr rfl
    · rintro (⟨q, hq, rfl⟩ | hxk)
      · exact ⟨q, List.mem_append_left _ hq, rfl⟩
      · exact ⟨(k, 1), List.mem_append_right _ (List.mem_singleton_self _), hxk.symm⟩

theorem mem_of_mem_dedupFS : ∀ (l : List String) (x : String), x ∈ dedupFS l → x ∈ l := by
  intro l
  induction l using dedupFS.induct with
  | case1 =>
    intro x hx
    simp [dedupFS] at hx
  | case2 y ys ih =>
    intro x hx
    rw [dedupFS] at hx
    rcases List.mem_cons.mp hx with rfl | hx
    · exact List.mem_cons_self _ _
    · exact List.mem_cons_of_mem _ (List.mem_of_mem_filter (ih x hx))

theorem nodup_dedupFS : ∀ l : List String, (dedupFS l).Nodup := by
  intro l
  induction l using dedupFS.induct with
  | case1 => simp [dedupFS]
  | case2 y ys ih =>
    rw [dedupFS]
    refine List.nodup_cons.mpr ⟨fun hy => ?_, ih⟩
    have := List.of_mem_filter (mem_of_mem_dedupFS _ _ hy)
    simp at this

/-- The frequency-object accumulation, run from any accumulator: existing
keys keep their place and gain the new occurrences, and the keys not yet
present are appended in first-seen order with their occurrence counts. -/
theorem bumpList_eq (l : List String) : ∀ acc : List (String × Nat),
    bumpList acc l =
      acc.map (fun p => (p.1, p.2 + l.count p.1)) ++
      (dedupFS (l.filter (fun x => !hasKey acc x))).map (fun x => (x, l.count x)) := by
  induction l with
  | nil =>
    intro acc
    simp [bumpList, dedupFS]
  | cons k ks ih =>
    intro acc
    have hstep : bumpList acc (k :: ks) = bumpList (bump acc k) ks := rfl
    rw [hstep, ih (bump acc k)]
    have hpred : (fun x => !hasKey (bump acc k) x) =
        (fun x => !(hasKey acc x || (x == k))) := by
      funext x
      rw [hasKey_bump]
    rw [hpred]
    by_cases h : hasKey acc k = true
    · have hmap : (bump acc k).map (fun p => (p.1, p.2 + ks.count p.1)) =
          acc.map (fun p => (p.1, p.2 + (k :: ks).count p.1)) := by
        simp only [bump, if_pos h, List.map_map]
        refine List.map_congr_left fun p _ => ?_
        by_cases h' : p.1 = k
        · simp [Function.comp, h', List.count_cons]
          omega
        · simp [Function.comp, h', List.count_cons]
      rw [hmap]
      have hfilter : ks.filter (fun x => !(hasKey acc x || (x == k))) =
          (k :: ks).filter (fun x => !hasKey acc x) := by
        rw [List.filter_cons_of_neg (by simp [h])]
        refine List.filter_congr fun x _ => ?_
        by_cases hx : x = k
        · simp [hx, h]
        · simp [hx]
      rw [hfilter]
      congr 1
      refine List.map_congr_left fun x hx => ?_
      have hxk : k ≠ x := by
        intro hke
        have hxp := List.of_mem_filter (mem_of_mem_dedupFS _ _ hx)
        rw [← hke] at hxp
        simp [h] at hxp
      simp [List.count_cons, hxk]
    · have hbmp : bump acc k = acc ++ [(k, 1)] := by simp [bump, h]
      rw [hbmp, List.map_append]
      rw [List.filter_cons_of_pos (by simp [h]), dedupFS, List.filter_filter]
      have hpreds : (fun x => !(hasKey acc x || (x == k))) =
          (fun a => decide (a ≠ k) && !hasKey acc a) := by
        funext x
        by_cases hx : x = k
        · simp [hx, h]
        · simp [hx]
      rw [hpreds, List.append_assoc]
      congr 1
      · refine List.map_congr_left fun p hp => ?_
        have hpk : k ≠ p.1 := by
          intro he
          exact h (he ▸ hasKey_of_mem hp)
        simp [List.count_cons, hpk]
      · simp only [List.map_cons, List.map_nil, List.singleton_append]
        congr 1
        · simp [List.count_cons_self, Nat.add_comm]
        · refine List.map_congr_left fun x hx => ?_
          have hxk : k ≠ x := by
            have hxp := List.of_mem_filter (mem_of_mem_dedupFS _ _ hx)
            intro hke
            simp [← hke] at hxp
          simp [List.count_cons, hxk]

theorem bumpList_nil_eq (l : List String) :
    bumpList [] l = (dedupFS l).map (fun x => (x, l.count x)) := by
  have h := bumpList_eq l []
  simpa [hasKey] using h

theorem foldl_bump_field (rs : List SurveyResponse) (f : SurveyResponse → String) :
    rs.foldl (fun acc r => bump acc (f r)) [] = bumpList [] (rs.map f) := by
  rw [bumpList, List.foldl_map]

theorem fieldData_eq (vals : List String) :
    accToEntries (bumpList [] vals) = fieldDistributionSpec vals := by
  rw [bumpList_nil_eq]
  simp [accToEntries, fieldDistributionSpec, List.map_map, Function.comp]

theorem getAgeGroupData_eq (rs : List SurveyResponse) :
    getAgeGroupData rs = fieldDistributionSpec (rs.map (fun r => r.age_group)) := by
  rw [getAgeGroupData, foldl_bump_field, fieldData_eq]

theorem getRecommendationData_eq (rs : List SurveyResponse) :
    getRecommendationData rs = fieldDistributionSpec (rs.map (fun r => r.recommend_telegram)) := by
  rw [getRecommendationData, foldl_bump_field, fieldData_eq]

theorem getUsageDurationData_eq (rs : List SurveyResponse) :
    getUsageDurationData rs = fieldDistributionSpec (rs.map (fun r => r.usage_duration)) := by
  rw [getUsageDurationData, foldl_bump_field, fieldData_eq]

/-- C7: each of the three single-valued chart derivations is exactly the
frequency sequence keyed by the literal field value in first-seen order,
with no sorting applied. -/
theorem claim_C7 (rs : List SurveyResponse) :
    getAgeGroupData rs = fieldDistributionSpec (rs.map (fun r => r.age_group)) ∧
    getRecommendationData rs = fieldDistributionSpec (rs.map (fun r => r.recommend_telegram)) ∧
    getUsageDurationData rs = fieldDistributionSpec (rs.map (fun r => r.usage_duration)) :=
  ⟨getAgeGroupData_eq rs, getRecommendationData_eq rs, getUsageDurationData_eq rs⟩

theorem count_add_length_filter_ne (y : String) (ys : List String) :
    ys.count y + (ys.filter (fun z => z ≠ y)).length = ys.length := by
  induction ys with
  | nil => simp
  | cons a ys ih =>
    by_cases h : a = y
    · subst h
      rw [List.count_cons_self, List.filter_cons_of_neg (by simp)]
      simp only [List.length_cons]
      omega
    · have hne : (a == y) = false := by simp [h]
      rw [List.count_cons, List.filter_cons_of_pos (by simp [h]), hne]
      simp only [Bool.false_eq_true, if_false, List.length_cons]
      omega

theorem sum_count_dedupFS : ∀ l : List String,
    ((dedupFS l).map (fun x => l.count x)).sum = l.length := by
  intro l
  induction l using dedupFS.induct with
  | case1 => simp [dedupFS]
  | case2 y ys ih =>
    rw [dedupFS]
    simp only [List.map_cons, List.sum_cons]
    have hcongr : ∀ x ∈ dedupFS (ys.filter (fun z => z ≠ y)),
        (y :: ys).count x = (ys.filter (fun z => z ≠ y)).count x := by
      intro x hx
      have hxy : x ≠ y := by
        simpa using List.of_mem_filter (mem_of_mem_dedupFS _ _ hx)
      rw [List.count_cons, List.count_filter (by simpa using hxy)]
      have hne : (y == x) = false := by simp [Ne.symm hxy]
      rw [hne]
      simp
    rw [List.map_congr_left hcongr, ih, List.count_cons_self]
    have h := count_add_length_filter_ne y ys
    simp only [ne_eq, decide_not] at h ⊢
    simp only [List.length_cons]
    omega

theorem fieldDistributionSpec_props (vals : List String) :
    ((fieldDistributionSpec vals).map (fun e => e.name)).Nodup ∧
    0 ∉ (fieldDistributionSpec vals).map (fun e => e.value) ∧
    ((fieldDistributionSpec vals).map (fun e => e.value)).sum = vals.length := by
  have hnames : (fieldDistributionSpec vals).map (fun e => e.name) = dedupFS vals := by
    simp [fieldDistributionSpec, List.map_map, Function.comp_def]
  have hvalues : (fieldDistributionSpec vals).map (fun e => e.value) =
      (dedupFS vals).map (fun x => vals.count x) := by
    simp [fieldDistributionSpec, List.map_map, Function.comp_def]
  refine ⟨?_, ?_, ?_⟩
  · rw [hnames]
    exact nodup_dedupFS vals
  · rw [hvalues]
    intro h0
    obtain ⟨x, hx, hcount⟩ := List.mem_map.mp h0
    exact absurd (mem_of_mem_dedupFS _ _ hx) (List.count_eq_zero.mp hcount)
  · rw [hvalues]
    exact sum_count_dedupFS vals

/-- C10: in each of the three single-valued distributions over a page,
every label is distinct, every count is at least 1 (0 never occurs), and
the counts sum to the number of records in the page. -/
theorem claim_C10 (rs : List SurveyResponse) :
    (((getAgeGroupData rs).map (fun e => e.name)).Nodup ∧
      0 ∉ (getAgeGroupData rs).map (fun e => e.value) ∧
      ((getAgeGroupData rs).map (fun e => e.value)).sum = rs.length) ∧
    (((getRecommendationData rs).map (fun e => e.name)).Nodup ∧
      0 ∉ (getRecommendationData rs).map (fun e => e.value) ∧
      ((getRecommendationData rs).map (fun e => e.value)).sum = rs.length) ∧
    (((getUsageDurationData rs).map (fun e => e.name)).Nodup ∧
      0 ∉ (getUsageDurationData rs).map (fun e => e.value) ∧
      ((getUsageDurationData rs).map (fun e => e.value)).sum = rs.length) := by
  refine ⟨?_, ?_, ?_⟩
  · rw [getAgeGroupData_eq]
    simpa [List.length_map] using fieldDistributionSpec_props (rs.map (fun r => r.age_group))
  · rw [getRecommendationData_eq]
    simpa [List.length_map] using
      fieldDistributionSpec_props (rs.map (fun r => r.recommend_telegram))
  · rw [getUsageDurationData_eq]
    simpa [List.length_map] using
      fieldDistributionSpec_props (rs.map (fun r => r.usage_duration))

/-! ## Theorems: content-preference derivation -/

/-- The regex tail scanner agrees with the `takeWhile`/`drop` phrasing:
it succeeds exactly when the character after the leading non-whitespace
run is a space. -/
theorem afterTok_eq (cs : List Char) :
    afterTok cs =
      (if (cs.drop (cs.takeWhile (fun c => !jsWhitespace c)).length).head? = some ' '
       then some (cs.drop ((cs.takeWhile (fun c => !jsWhitespace c)).length + 1))
       else none) := by
  induction cs with
  | nil => simp [afterTok]
  | cons c cs ih =>
    by_cases hsp : c = ' '
    · subst hsp
      simp [afterTok, jsWhitespace, List.takeWhile_cons]
    · by_cases hws : jsWhitespace c = true
      · simp [afterTok, hsp, hws, List.takeWhile_cons]
      · simp only [afterTok, if_neg hsp, hws, if_false, Bool.false_eq_true]
        rw [ih]
        simp [List.takeWhile_cons, hws, List.drop_succ_cons]

/-- The embedded regex replace agrees with the specification's
`takeWhile`-based phrasing of the label strip. -/
theorem stripLabel_eq_spec (s : String) : stripLabel s = stripLabelSpec s := by
  rcases hs : s.data with _ | ⟨c, cs⟩
  · simp [stripLabel, stripLabelSpec, hs]
  · by_cases hws : jsWhitespace c = true
    · simp [stripLabel, stripLabelSpec, hs, hws, List.takeWhile_cons]
    · simp only [stripLabel, stripLabelSpec, hs, hws, Bool.false_eq_true, if_false]
      rw [afterTok_eq]
      by_cases hh : cs[(List.takeWhile (fun c => !jsWhitespace c) cs).length]? = some ' '
      · simp [hh, List.takeWhile_cons, hws, List.drop_succ_cons]
      · simp [hh, List.takeWhile_cons, hws]

theorem foldl_bump_flatten : ∀ (ls : List (List String)) (acc : List (String × Nat)),
    ls.foldl (fun a l => l.foldl bump a) acc = ls.flatten.foldl bump acc := by
  intro ls
  induction ls with
  | nil => intro acc; rfl
  | cons l ls ih =>
    intro acc
    rw [List.foldl_cons, List.flatten_cons, List.foldl_append, ih]

theorem contentCounts_eq (rs : List SurveyResponse) :
    contentCounts rs = bumpList [] ((rs.map (fun r => r.content_preference)).flatten) := by
  rw [contentCounts, bumpList, ← foldl_bump_flatten, List.foldl_map]

theorem sorted_sortEntriesDesc (l : List ChartEntry) :
    List.Sorted (fun a b : ChartEntry => b.value ≤ a.value) (sortEntriesDesc l) := by
  haveI : IsTotal ChartEntry (fun a b : ChartEntry => b.value ≤ a.value) :=
    ⟨fun _ _ => Nat.le_total _ _⟩
  haveI : IsTrans ChartEntry (fun a b : ChartEntry => b.value ≤ a.value) :=
    ⟨fun _ _ _ hab hbc => Nat.le_trans hbc hab⟩
  exact List.sorted_insertionSort _ l

/-- C3: the content-preference series equals its specification form —
count every element of every record's flattened `content_preference` list
in first-seen key order, strip the leading token-plus-space from each
label, stably sort descending by count, truncate to 10 — and the result is
sorted descending by count with at most 10 entries. -/
theorem claim_C3 (rs : List SurveyResponse) :
    getContentPreferenceData rs = contentPreferenceSpec rs ∧
    List.Sorted (fun a b : ChartEntry => b.value ≤ a.value) (getContentPreferenceData rs) ∧
    (getContentPreferenceData rs).length ≤ 10 := by
  refine ⟨?_, ?_, ?_⟩
  · rw [getContentPreferenceData, contentCounts_eq, bumpList_nil_eq]
    simp only [contentPreferenceSpec]
    rw [List.map_map]
    refine congrArg (List.take 10) (congrArg sortEntriesDesc ?_)
    refine List.map_congr_left fun x _ => ?_
    simp [Function.comp_def, stripLabel_eq_spec]
  · rw [getContentPreferenceData]
    exact List.Pairwise.sublist (List.take_sublist _ _) (sorted_sortEntriesDesc _)
  · rw [getContentPreferenceData]
    exact List.length_take_le _ _

end TelegramSurvey
